import Mathlib

/-!
# Propulsion_Tb — verification of the test-bench controller

Shallow embedding of the Arduino sketch (the final test-bench code shipped
with the repository's README).  The sketch is a single-threaded polling
loop over a set of global variables; we embed those globals as the fields
of a `Sys` structure and each C function as a Lean function on `Sys`.

Modelling conventions:
* `float` arithmetic is embedded over `ℚ` (the spec states its numeric
  properties "within floating-point tolerance"; over `ℚ` they hold exactly).
* `millis()` timestamps are `ℕ` milliseconds; `unsigned long` subtraction
  is `ℕ` subtraction (the 32-bit wrap after 49 days is out of scope).
* The HX711 sensor, the serial console and the SD card are external
  collaborators: every value the sketch reads from them is an input of the
  corresponding Lean function (one `LoopInput` per `loop()` iteration).
* Writes to the E-match MOSFET pin (`digitalWrite(E_MATCH_PIN, …)`) are
  recorded as events `(level, time)` in an event trace, so that the pin
  level during the 2-second ignition hold (which happens inside a
  `delay(2000)` in `igniteMotor`) is observable; `delay(2000)` is modelled
  as advancing time by exactly 2000 ms.
* `Serial.print` logging, LED/buzzer indication and SD flush throttling
  (`lastSdFlush`, `lastPrint`) are cosmetic and not modelled.
-/

/-- One CSV data row written to the session file by `acquireData`. -/
structure SampleRecord where
  elapsedMs : ℕ
  thrustN : ℚ
  impulseNs : ℚ
  avgThrustN : ℚ
  peakThrustN : ℚ
  burnTimeS : ℚ
  deriving Repr, DecidableEq

/-- A write to the E-match pin: the driven level (`true` = HIGH) and the
`millis()` time at which it is driven. -/
abbrev Event := Bool × ℕ

/-- The sketch's global variables (plus the `static` local
`lowThrustStart` of `checkBurnComplete`, and the E-match pin level and the
rows written to the session file, which are observable device/file state). -/
structure Sys where
  ematch : Bool
  known_weight : ℚ
  burnStartTime : ℕ
  burnEndTime : ℕ
  thrust : ℚ
  impulse : ℚ
  peakthrust : ℚ
  avgthrust : ℚ
  lastsampletime : ℕ
  burntime : ℚ
  previoustime : ℕ
  countdownTime : ℤ
  countdownstate : Bool
  hx_ini : Bool
  testInProgress : Bool
  samplecount : ℕ
  sdOpenForWrite : Bool
  scaleFactor : ℚ
  lowThrustStart : ℕ
  records : List SampleRecord
  deriving Repr, DecidableEq

/-- Standard gravity, `9.80665f` in the sketch. -/
def GRAV : ℚ := 980665 / 100000

/-- The state after `setup()` completes: pin driven LOW, globals at their
initialisers, `hx_ini := true` (if HX711 or SD never come up, `setup`
spins forever and no `loop()` iteration ever runs, so every reachable
`loop` execution starts from this state).  The HX711 default scale is 1. -/
def initState : Sys where
  ematch := false
  known_weight := 0
  burnStartTime := 0
  burnEndTime := 0
  thrust := 0
  impulse := 0
  peakthrust := 0
  avgthrust := 0
  lastsampletime := 0
  burntime := 0
  previoustime := 0
  countdownTime := 15
  countdownstate := false
  hx_ini := true
  testInProgress := false
  samplecount := 0
  sdOpenForWrite := false
  scaleFactor := 1
  lowThrustStart := 0
  records := []

/-- The external inputs consumed by one `loop()` iteration: the `millis()`
clock, the (debounced) calibration-switch reading, the operator's weight
entry as parsed by `String::toFloat` (non-numeric text parses to `0.0`),
the averaged raw load-cell reading used by calibration, the single-sample
mass reading used by acquisition, and whether `SD.open` succeeds at
ignition. -/
structure LoopInput where
  now : ℕ
  switchPressed : Bool
  weight : ℚ
  rawReading : ℚ
  mass : ℚ
  sdOpenOk : Bool
  deriving Repr, DecidableEq

/-- `hxCalibrate()`: abort if HX711 is down; read the operator's weight;
abort (leaving the scale untouched) if it is non-positive; otherwise set
the scale factor to `rawReading / known_weight`.  The tare and the
sanity-check re-read only touch sensor-internal state. -/
def hxCalibrate (weight rawReading : ℚ) (s : Sys) : Sys :=
  if !s.hx_ini then s
  else
    let s := { s with known_weight := weight }
    if s.known_weight ≤ 0 then s
    else { s with scaleFactor := rawReading / s.known_weight }

/-- `startCountdown()`: arm the 15-second countdown. -/
def startCountdown (now : ℕ) (s : Sys) : Sys :=
  { s with previoustime := now, countdownstate := true, countdownTime := 15 }

/-- `igniteMotor()` at time `now`: drive the pin HIGH, hold 2 s, drive it
LOW, then reset the burn accumulators, stamp `burnStartTime` with the
post-hold clock and open the session file (degraded, log-free mode when
the open fails). -/
def igniteMotor (now : ℕ) (sdOpenOk : Bool) (s : Sys) : Sys × List Event :=
  ({ s with ematch := false
            testInProgress := true
            burnStartTime := now + 2000
            lastsampletime := now + 2000
            samplecount := 0
            impulse := 0
            peakthrust := 0
            avgthrust := 0
            sdOpenForWrite := sdOpenOk },
   [(true, now), (false, now + 2000)])

/-- `countDown()`: once armed, decrement once per elapsed second; on
reaching zero, disarm and ignite. -/
def countDown (inp : LoopInput) (s : Sys) : Sys × List Event :=
  if s.countdownstate then
    if 1000 ≤ inp.now - s.previoustime then
      let s := { s with previoustime := inp.now, countdownTime := s.countdownTime - 1 }
      if s.countdownTime ≤ 0 then
        igniteMotor inp.now inp.sdOpenOk { s with countdownstate := false }
      else (s, [])
    else (s, [])
  else (s, [])

/-- The elapsed-time quantity `(now - lastsampletime) / 1000.0f` of
`acquireData` (exact, over `ℚ`). -/
def tickDt (now : ℕ) (s : Sys) : ℚ := (((now : ℤ) - (s.lastsampletime : ℤ) : ℤ) : ℚ) / 1000

/-- The thrust derived from one mass sample: clamp negative readings to
zero, then multiply by standard gravity. -/
def tickThrust (mass : ℚ) : ℚ := (if mass < 0 then 0 else mass) * GRAV

/-- `acquireData()` at time `now` with sensor reading `mass`: skip the
tick when `dt ≤ 0`; otherwise derive the thrust, integrate the impulse,
update peak and incremental average, stamp the sample time and burn time,
and append one CSV row when the session file is open. -/
def acquireData (now : ℕ) (mass : ℚ) (s : Sys) : Sys :=
  let dt := tickDt now s
  if dt ≤ 0 then s
  else
    let thrust := tickThrust mass
    let impulse := s.impulse + thrust * dt
    let peakthrust := if s.peakthrust < thrust then thrust else s.peakthrust
    let samplecount := s.samplecount + 1
    let avgthrust := s.avgthrust + (thrust - s.avgthrust) / (samplecount : ℚ)
    let elapsed := now - s.burnStartTime
    let burntime := (elapsed : ℚ) / 1000
    let row : SampleRecord :=
      { elapsedMs := elapsed, thrustN := thrust, impulseNs := impulse
        avgThrustN := avgthrust, peakThrustN := peakthrust, burnTimeS := burntime }
    { s with thrust, impulse, peakthrust, samplecount, avgthrust
             lastsampletime := now, burntime
             records := if s.sdOpenForWrite then s.records ++ [row] else s.records }

/-- `endBurn()` at time `now`: a no-op once the test is over; otherwise
stop the test, stamp the end time, force the E-match pin LOW and close
the session file. -/
def endBurn (now : ℕ) (s : Sys) : Sys × List Event :=
  if !s.testInProgress then (s, [])
  else
    ({ s with testInProgress := false
              burnEndTime := now
              burntime := ((now - s.burnStartTime : ℕ) : ℚ) / 1000
              ematch := false
              sdOpenForWrite := false },
     [(false, now)])

/-- `checkBurnComplete()` at time `now`: track how long thrust has stayed
below the 0.5 N threshold (the `static` `lowThrustStart`, with 0 as the
unset sentinel) and end the burn after more than 3000 ms of continuous
low thrust; independently, end the burn when `burntime` exceeds the 60 s
safety timeout. -/
def checkBurnComplete (now : ℕ) (s : Sys) : Sys × List Event :=
  let step1 : Sys × List Event :=
    if s.thrust < 1/2 then
      if s.lowThrustStart = 0 then ({ s with lowThrustStart := now }, [])
      else if 3000 < now - s.lowThrustStart then endBurn now s
      else (s, [])
    else ({ s with lowThrustStart := 0 }, [])
  let s1 := step1.1
  let step2 : Sys × List Event := if 60 < s1.burntime then endBurn now s1 else (s1, [])
  (step2.1, step1.2 ++ step2.2)

/-- One `loop()` iteration: the switch-triggered calibration-and-countdown
branch, then `countDown()`, then (while a test is in progress) one
acquisition tick and the burn-completion check. -/
def loopIter (inp : LoopInput) (s : Sys) : Sys × List Event :=
  let s :=
    if inp.switchPressed && !s.countdownstate && !s.testInProgress then
      startCountdown inp.now (hxCalibrate inp.weight inp.rawReading s)
    else s
  let cd := countDown inp s
  let s := cd.1
  let acq : Sys × List Event :=
    if s.testInProgress then
      checkBurnComplete inp.now (acquireData inp.now inp.mass s)
    else (s, [])
  (acq.1, cd.2 ++ acq.2)

/-- Run the polling loop over a sequence of per-iteration inputs,
collecting the E-match pin events of the whole execution. -/
def runLoop : List LoopInput → Sys → Sys × List Event
  | [], s => (s, [])
  | inp :: rest, s =>
    let fst := loopIter inp s
    let more := runLoop rest fst.1
    (more.1, fst.2 ++ more.2)

/-- Run `acquireData` over a sequence of acquisition ticks, each tick a
`(millis, mass reading)` pair — the Acquiring phase of the loop restricted
to the Acquisition Engine. -/
def runAcq : List (ℕ × ℚ) → Sys → Sys
  | [], s => s
  | (t, m) :: rest, s => runAcq rest (acquireData t m s)

/-- The impulse contribution `thrust_i * dt_i` of every accepted tick of a
run (ticks failing the `dt > 0` guard contribute nothing). -/
def acqContribs : List (ℕ × ℚ) → Sys → List ℚ
  | [], _ => []
  | (t, m) :: rest, s =>
    (if tickDt t s ≤ 0 then [] else [tickThrust m * tickDt t s])
      ++ acqContribs rest (acquireData t m s)

/-- The derived thrust of every accepted tick of a run. -/
def acqThrusts : List (ℕ × ℚ) → Sys → List ℚ
  | [], _ => []
  | (t, m) :: rest, s =>
    (if tickDt t s ≤ 0 then [] else [tickThrust m])
      ++ acqThrusts rest (acquireData t m s)

/-- Run the Acquiring-phase loop at the Burn Monitor boundary: each tick
presents the monitor with the thrust and burn time the Acquisition Engine
just computed (spec contract `evaluate(thrust, burnTimeS)`), and the loop
stops consulting the monitor once the test is over. -/
def monitorRun : List (ℕ × ℚ × ℚ) → Sys → Sys
  | [], s => s
  | (now, th, bt) :: rest, s =>
    monitorRun rest
      (if s.testInProgress then (checkBurnComplete now { s with thrust := th, burntime := bt }).1 else s)

/-- The candidate filename `String(i) + "_PLT.csv"` probed by
`createNewSDfile`. -/
def mkName (i : ℕ) : String := toString i ++ "_PLT.csv"

/-- `createNewSDfile`'s probe loop, parameterised by the storage
collaborator's `SD.exists`: starting from index 0 it increments while the
candidate name exists, i.e. it stops at the least index whose name is
unused.  The loop terminates exactly when some candidate is unused (always
true of a finite card), which is the hypothesis `h`. -/
def createNewSDfilename (ex : String → Bool) (h : ∃ i, ex (mkName i) = false) : String :=
  mkName (Nat.find h)

/-- Trace well-formedness: every HIGH write is immediately followed by a
LOW write exactly 2000 ms later (the fixed ignition hold), so the pin is
high only during hold windows and the trace never ends high. -/
def HighOnlyDuringHold (evs : List Event) : Prop :=
  ∀ i t, evs[i]? = some (true, t) → evs[i + 1]? = some (false, t + 2000)

/-! ## Basic facts about one acquisition tick -/

lemma tickDt_nonpos_iff (now : ℕ) (s : Sys) : tickDt now s ≤ 0 ↔ now ≤ s.lastsampletime := by
  unfold tickDt
  rw [div_nonpos_iff]
  constructor
  · rintro (⟨h, h1000⟩ | ⟨h, _⟩)
    · norm_num at h1000
    · have : ((now : ℤ) - (s.lastsampletime : ℤ)) ≤ 0 := by exact_mod_cast h
      omega
  · intro h
    right
    constructor
    · have : ((now : ℤ) - (s.lastsampletime : ℤ)) ≤ 0 := by omega
      exact_mod_cast this
    · norm_num

lemma tickThrust_nonneg (m : ℚ) : 0 ≤ tickThrust m := by
  unfold tickThrust GRAV
  split
  · norm_num
  · rename_i h
    push_neg at h
    positivity

lemma acquireData_skip {now : ℕ} {s : Sys} (m : ℚ) (h : tickDt now s ≤ 0) :
    acquireData now m s = s := by
  simp [acquireData, h]

lemma acquireData_step {now : ℕ} {s : Sys} (m : ℚ) (h : ¬ tickDt now s ≤ 0) :
    (acquireData now m s).impulse = s.impulse + tickThrust m * tickDt now s
    ∧ (acquireData now m s).samplecount = s.samplecount + 1
    ∧ (acquireData now m s).avgthrust
        = s.avgthrust + (tickThrust m - s.avgthrust) / ((s.samplecount : ℚ) + 1) := by
  refine ⟨?_, ?_, ?_⟩ <;> simp [acquireData, h]

lemma acquireData_impulse_mono (now : ℕ) (m : ℚ) (s : Sys) :
    s.impulse ≤ (acquireData now m s).impulse := by
  by_cases h : tickDt now s ≤ 0
  · rw [acquireData_skip m h]
  · rw [(acquireData_step m h).1]
    have hdt : 0 < tickDt now s := lt_of_not_le h
    nlinarith [tickThrust_nonneg m]

/-! ## The impulse accumulator (C4) -/

lemma runAcq_impulse (ticks : List (ℕ × ℚ)) (s : Sys) :
    (runAcq ticks s).impulse = s.impulse + (acqContribs ticks s).sum := by
  induction ticks generalizing s with
  | nil => simp [runAcq, acqContribs]
  | cons tick rest ih =>
    obtain ⟨t, m⟩ := tick
    by_cases h : tickDt t s ≤ 0
    · simp [runAcq, acqContribs, h, ih, acquireData_skip m h]
    · simp only [runAcq, acqContribs, if_neg h, List.sum_append, List.sum_cons,
        List.sum_nil, List.singleton_append, ih]
      rw [(acquireData_step m h).1]
      ring

lemma acqContribs_nonneg (ticks : List (ℕ × ℚ)) (s : Sys) :
    ∀ c ∈ acqContribs ticks s, 0 ≤ c := by
  induction ticks generalizing s with
  | nil => simp [acqContribs]
  | cons tick rest ih =>
    obtain ⟨t, m⟩ := tick
    intro c hc
    by_cases h : tickDt t s ≤ 0
    · simp only [acqContribs, if_pos h, List.nil_append] at hc
      exact ih _ c hc
    · simp only [acqContribs, if_neg h, List.singleton_append, List.mem_cons] at hc
      rcases hc with rfl | hc
      · exact mul_nonneg (tickThrust_nonneg m) (le_of_lt (lt_of_not_le h))
      · exact ih _ c hc

/-- C4: for every sequence of acquisition ticks, the cumulative impulse
after the run equals its initial value plus the running sum of
`thrust_i * dt_i` over all accepted (dt > 0) samples, every such
contribution is non-negative (thrust is clamped ≥ 0), and each tick
leaves the impulse no smaller than before, so the impulse is
monotonically non-decreasing from tick to tick. -/
theorem impulse_eq_sum_and_monotone (ticks : List (ℕ × ℚ)) (s : Sys) :
    (runAcq ticks s).impulse = s.impulse + (acqContribs ticks s).sum
    ∧ (∀ c ∈ acqContribs ticks s, 0 ≤ c)
    ∧ ∀ (now : ℕ) (m : ℚ) (s' : Sys), s'.impulse ≤ (acquireData now m s').impulse :=
  ⟨runAcq_impulse ticks s, acqContribs_nonneg ticks s,
    fun now m s' => acquireData_impulse_mono now m s'⟩

/-! ## The incremental average (C8, C10) -/

lemma runAcq_samplecount (ticks : List (ℕ × ℚ)) (s : Sys) :
    (runAcq ticks s).samplecount = s.samplecount + (acqThrusts ticks s).length := by
  induction ticks generalizing s with
  | nil => simp [runAcq, acqThrusts]
  | cons tick rest ih =>
    obtain ⟨t, m⟩ := tick
    by_cases h : tickDt t s ≤ 0
    · simp [runAcq, acqThrusts, h, ih, acquireData_skip m h]
    · simp only [runAcq, acqThrusts, if_neg h, List.singleton_append, List.length_cons, ih]
      rw [(acquireData_step m h).2.1]
      omega

lemma runAcq_avg_mul (ticks : List (ℕ × ℚ)) (s : Sys) :
    (runAcq ticks s).avgthrust * ((runAcq ticks s).samplecount : ℚ)
      = s.avgthrust * (s.samplecount : ℚ) + (acqThrusts ticks s).sum := by
  induction ticks generalizing s with
  | nil => simp [runAcq, acqThrusts]
  | cons tick rest ih =>
    obtain ⟨t, m⟩ := tick
    by_cases h : tickDt t s ≤ 0
    · simp [runAcq, acqThrusts, h, ih, acquireData_skip m h]
    · simp only [runAcq, acqThrusts, if_neg h, List.singleton_append, List.sum_cons, ih]
      obtain ⟨-, hcount, havg⟩ := acquireData_step m h
      rw [hcount, havg]
      have hne : ((s.samplecount : ℚ) + 1) ≠ 0 := by positivity
      push_cast
      field_simp
      ring

/-- C8: starting from the ignition-reset accumulators (sample count 0,
average 0), after any run whose accepted samples are `thrust_1..thrust_N`
with N ≥ 1, the running average equals the arithmetic mean of
`thrust_1..thrust_N`. -/
theorem running_average_is_arithmetic_mean (ticks : List (ℕ × ℚ)) (s : Sys)
    (h0 : s.samplecount = 0) (ha : s.avgthrust = 0)
    (hne : acqThrusts ticks s ≠ []) :
    (runAcq ticks s).avgthrust
      = (acqThrusts ticks s).sum / ((acqThrusts ticks s).length : ℚ) := by
  have hmul := runAcq_avg_mul ticks s
  have hcount := runAcq_samplecount ticks s
  rw [h0, ha] at *
  have hlen : (acqThrusts ticks s).length ≠ 0 := by
    simpa [List.length_eq_zero] using hne
  have hlenQ : ((acqThrusts ticks s).length : ℚ) ≠ 0 := Nat.cast_ne_zero.mpr hlen
  rw [hcount] at hmul
  simp only [Nat.zero_add, Nat.cast_zero, zero_mul, zero_add] at hmul
  field_simp
  linarith [hmul]

/-- C10: whenever an acquisition tick passes the `dt > 0` guard, the
sample counter is incremented first and the incremented value — which is
at least 1, hence non-zero as the divisor — is what divides the
incremental-average update. -/
theorem samplecount_incremented_before_divide (now : ℕ) (m : ℚ) (s : Sys)
    (h : ¬ tickDt now s ≤ 0) :
    (acquireData now m s).samplecount = s.samplecount + 1
    ∧ 1 ≤ (acquireData now m s).samplecount
    ∧ ((acquireData now m s).samplecount : ℚ) ≠ 0
    ∧ (acquireData now m s).avgthrust
        = s.avgthrust + (tickThrust m - s.avgthrust) / ((acquireData now m s).samplecount : ℚ) := by
  obtain ⟨-, hcount, havg⟩ := acquireData_step m h
  refine ⟨hcount, by omega, ?_, ?_⟩
  · rw [hcount]; positivity
  · rw [havg, hcount]; push_cast; ring_nf

/-- Witness for C10 at the tick `now = 1000`, mass 1, from the post-setup
state (last sample time 0, so `dt = 1 > 0`). -/
theorem samplecount_incremented_before_divide_witness :
    (acquireData 1000 1 initState).samplecount = initState.samplecount + 1
    ∧ 1 ≤ (acquireData 1000 1 initState).samplecount
    ∧ ((acquireData 1000 1 initState).samplecount : ℚ) ≠ 0
    ∧ (acquireData 1000 1 initState).avgthrust
        = initState.avgthrust
          + (tickThrust 1 - initState.avgthrust) / ((acquireData 1000 1 initState).samplecount : ℚ) :=
  samplecount_incremented_before_divide 1000 1 initState
    (by norm_num [tickDt, initState])

/-! ## Record ordering (C9) -/

/-- Session-file ordering invariant: the sample clock is at or past the
burn start, the rows written so far have strictly increasing `elapsedMs`,
and every written row is no later than the last accepted sample. -/
def sessionOrdered (s : Sys) : Prop :=
  s.burnStartTime ≤ s.lastsampletime
  ∧ List.Chain' (· < ·) (s.records.map SampleRecord.elapsedMs)
  ∧ ∀ r ∈ s.records, r.elapsedMs ≤ s.lastsampletime - s.burnStartTime

lemma sessionOrdered_step (now : ℕ) (m : ℚ) (s : Sys) (hs : sessionOrdered s) :
    sessionOrdered (acquireData now m s) := by
  obtain ⟨hle, hchain, hbound⟩ := hs
  by_cases h : tickDt now s ≤ 0
  · rw [acquireData_skip m h]
    exact ⟨hle, hchain, hbound⟩
  · have hlt : s.lastsampletime < now := by
      rcases lt_or_le s.lastsampletime now with h' | h'
      · exact h'
      · exact absurd ((tickDt_nonpos_iff now s).mpr h') h
    by_cases hsd : s.sdOpenForWrite
    · refine ⟨?_, ?_, ?_⟩ <;> simp only [acquireData, if_neg h, hsd, if_true]
      · omega
      · rw [List.map_append]
        rw [List.chain'_append]
        refine ⟨hchain, by simp, ?_⟩
        intro x hx y hy
        simp only [List.map_cons, List.map_nil, List.head?_cons, Option.mem_def,
          Option.some.injEq] at hy
        subst hy
        have hxmem : x ∈ s.records.map SampleRecord.elapsedMs := by
          obtain ⟨hne, rfl⟩ := List.mem_getLast?_eq_getLast hx
          exact List.getLast_mem hne
        obtain ⟨r, hr, rfl⟩ := List.mem_map.mp hxmem
        have := hbound r hr
        omega
      · intro r hr
        rcases List.mem_append.mp hr with hr' | hr'
        · have := hbound r hr'
          omega
        · simp only [List.mem_singleton] at hr'
          subst hr'
          simp
    · refine ⟨?_, ?_, ?_⟩ <;> simp only [acquireData, if_neg h, hsd, if_false]
      · omega
      · exact hchain
      · intro r hr
        have := hbound r hr
        omega

lemma sessionOrdered_run (ticks : List (ℕ × ℚ)) (s : Sys) (hs : sessionOrdered s) :
    sessionOrdered (runAcq ticks s) := by
  induction ticks generalizing s with
  | nil => exact hs
  | cons tick rest ih =>
    obtain ⟨t, m⟩ := tick
    exact ih _ (sessionOrdered_step t m s hs)

/-- C9: within one session (no rows yet, sample clock at or past the burn
start), any run of acquisition ticks writes its rows in strictly
increasing `elapsedMs` order; a tick failing the `dt > 0` guard changes
nothing at all — in particular it writes no row. -/
theorem records_strictly_increasing (ticks : List (ℕ × ℚ)) (s : Sys)
    (h1 : s.records = []) (h2 : s.burnStartTime ≤ s.lastsampletime) :
    List.Chain' (· < ·) (((runAcq ticks s).records).map SampleRecord.elapsedMs)
    ∧ ∀ (now : ℕ) (m : ℚ) (s' : Sys), tickDt now s' ≤ 0 → acquireData now m s' = s' := by
  have : sessionOrdered s := by
    refine ⟨h2, ?_, ?_⟩ <;> simp [h1]
  exact ⟨(sessionOrdered_run ticks s this).2.1, fun now m s' h => acquireData_skip m h⟩

/-- Witness for C9: a fresh session (post-setup state with the file open)
run over three ticks, one of which repeats a timestamp and is skipped. -/
theorem records_strictly_increasing_witness :
    List.Chain' (· < ·)
      (((runAcq [(5, 1), (5, 2), (9, 2)] { initState with sdOpenForWrite := true }).records).map
        SampleRecord.elapsedMs)
    ∧ ∀ (now : ℕ) (m : ℚ) (s' : Sys), tickDt now s' ≤ 0 → acquireData now m s' = s' :=
  records_strictly_increasing [(5, 1), (5, 2), (9, 2)] { initState with sdOpenForWrite := true }
    rfl (by norm_num [initState])

/-! ## The burn monitor (C5, C6) -/

lemma endBurn_stops {now : ℕ} {s : Sys} (h : s.testInProgress = true) :
    ((endBurn now s).1).testInProgress = false := by
  simp [endBurn, h]

lemma endBurn_noop {now : ℕ} {s : Sys} (h : s.testInProgress = false) :
    endBurn now s = (s, []) := by
  simp [endBurn, h]

/-- C6: whenever the burn time exceeds 60 seconds, `checkBurnComplete`
ends the burn, independently of the current thrust and of the low-thrust
tracking state. -/
theorem safety_timeout_ends_burn (now : ℕ) (s : Sys)
    (hp : s.testInProgress = true) (hbt : 60 < s.burntime) :
    ((checkBurnComplete now s).1).testInProgress = false := by
  unfold checkBurnComplete
  by_cases hth : s.thrust < 1/2
  · by_cases hl : s.lowThrustStart = 0
    · simp only [if_pos hth, if_pos hl, hbt, if_pos]
      exact endBurn_stops hp
    · by_cases hgap : 3000 < now - s.lowThrustStart
      · simp only [if_pos hth, if_neg hl, if_pos hgap]
        have h1 : ((endBurn now s).1).testInProgress = false := endBurn_stops hp
        by_cases h60 : 60 < ((endBurn now s).1).burntime
        · simp only [if_pos h60]
          rw [endBurn_noop h1]
          exact h1
        · simp only [if_neg h60]
          exact h1
      · simp only [if_pos hth, if_neg hl, if_neg hgap, hbt, if_pos]
        exact endBurn_stops hp
  · simp only [if_neg hth, hbt, if_pos]
    exact endBurn_stops hp

/-- Witness for C6: a burn state with `burntime = 61` s and a large
current thrust of 1000 N still ends the burn. -/
theorem safety_timeout_ends_burn_witness :
    ((checkBurnComplete 70000
        { initState with testInProgress := true, burntime := 61, thrust := 1000 }).1).testInProgress
      = false :=
  safety_timeout_ends_burn 70000
    { initState with testInProgress := true, burntime := 61, thrust := 1000 }
    rfl (by norm_num)

lemma monitorRun_stopped (ticks : List (ℕ × ℚ × ℚ)) {s : Sys}
    (h : s.testInProgress = false) : monitorRun ticks s = s := by
  induction ticks with
  | nil => rfl
  | cons tick rest ih =>
    obtain ⟨now, th, bt⟩ := tick
    simp [monitorRun, h, ih]

lemma checkBurn_trigger {now : ℕ} {s : Sys} (hp : s.testInProgress = true)
    (hth : s.thrust < 1/2) (hl : s.lowThrustStart ≠ 0)
    (hgap : 3000 < now - s.lowThrustStart) :
    ((checkBurnComplete now s).1).testInProgress = false := by
  unfold checkBurnComplete
  simp only [if_pos hth, if_neg hl, if_pos hgap]
  have h1 : ((endBurn now s).1).testInProgress = false := endBurn_stops hp
  by_cases h60 : 60 < ((endBurn now s).1).burntime
  · simp only [if_pos h60]
    rw [endBurn_noop h1]
    exact h1
  · simp only [if_neg h60]
    exact h1

lemma checkBurn_track {now : ℕ} {s : Sys}
    (hth : s.thrust < 1/2) (hl : s.lowThrustStart ≠ 0)
    (hgap : ¬ 3000 < now - s.lowThrustStart) (hbt : s.burntime ≤ 60) :
    (checkBurnComplete now s).1 = s := by
  unfold checkBurnComplete
  simp only [if_pos hth, if_neg hl, if_neg hgap, if_neg (not_lt.mpr hbt)]

lemma checkBurn_arm {now : ℕ} {s : Sys}
    (hth : s.thrust < 1/2) (hl : s.lowThrustStart = 0) (hbt : s.burntime ≤ 60) :
    (checkBurnComplete now s).1 = { s with lowThrustStart := now } := by
  unfold checkBurnComplete
  simp only [if_pos hth, if_pos hl, if_neg (not_lt.mpr hbt)]

lemma monitorRun_tracking (ticks : List (ℕ × ℚ × ℚ)) (t1 : ℕ) (s : Sys)
    (hs : s.testInProgress = true) (hl : s.lowThrustStart = t1) (ht1 : t1 ≠ 0)
    (hticks : ∀ x ∈ ticks, x.2.1 < 1/2 ∧ x.2.2 ≤ 60) :
    ((monitorRun ticks s).testInProgress = false ↔ ∃ x ∈ ticks, 3000 < x.1 - t1) := by
  induction ticks generalizing s with
  | nil => simp [monitorRun, hs]
  | cons tick rest ih =>
    obtain ⟨now, th, bt⟩ := tick
    obtain ⟨hth, hbt⟩ := hticks (now, th, bt) (List.mem_cons_self _ _)
    simp only at hth hbt
    have hticks' : ∀ x ∈ rest, x.2.1 < 1/2 ∧ x.2.2 ≤ 60 :=
      fun x hx => hticks x (List.mem_cons_of_mem _ hx)
    have hstep : monitorRun ((now, th, bt) :: rest) s
        = monitorRun rest ((checkBurnComplete now { s with thrust := th, burntime := bt }).1) := by
      simp only [monitorRun]
      rw [if_pos hs]
    set s' : Sys := { s with thrust := th, burntime := bt } with hs'def
    have hs'p : s'.testInProgress = true := hs
    have hs'l : s'.lowThrustStart = t1 := hl
    have hs'l0 : s'.lowThrustStart ≠ 0 := by rw [hs'l]; exact ht1
    by_cases hgap : 3000 < now - t1
    · have hstop : ((checkBurnComplete now s').1).testInProgress = false :=
        checkBurn_trigger hs'p hth hs'l0 (by rw [hs'l]; exact hgap)
      rw [hstep, monitorRun_stopped rest hstop]
      constructor
      · intro
        exact ⟨(now, th, bt), List.mem_cons_self _ _, hgap⟩
      · intro
        exact hstop
    · have hkeep : (checkBurnComplete now s').1 = s' :=
        checkBurn_track hth hs'l0 (by rw [hs'l]; exact hgap) hbt
      rw [hstep, hkeep, ih s' hs'p hs'l hticks']
      simp only [List.mem_cons, exists_eq_or_imp]
      simp [hgap]

/-- C5 (amended): the Burn Monitor resets its low-thrust-since timestamp
to unset whenever thrust ≥ 0.5 N, and — over any Acquiring run whose
every tick shows thrust below 0.5 N and burn time within the 60 s
timeout, starting with the timestamp unset and the first tick at a
non-zero clock `t1` — it ends the burn exactly when some tick arrives
strictly more than 3000 ms after `t1` (the code compares
`millis() - lowThrustStart > 3000`, so exactly 3000 ms does not
trigger; 3500 ms does, 2000 ms does not). -/
theorem low_thrust_window_ends_burn :
    (∀ (now : ℕ) (s : Sys), 1/2 ≤ s.thrust → ((checkBurnComplete now s).1).lowThrustStart = 0)
    ∧ ∀ (t1 : ℕ) (th1 bt1 : ℚ) (rest : List (ℕ × ℚ × ℚ)) (s : Sys),
        s.testInProgress = true → s.lowThrustStart = 0 → t1 ≠ 0 →
        (∀ x ∈ (t1, th1, bt1) :: rest, x.2.1 < 1/2 ∧ x.2.2 ≤ 60) →
        ((monitorRun ((t1, th1, bt1) :: rest) s).testInProgress = false
          ↔ ∃ x ∈ (t1, th1, bt1) :: rest, 3000 < x.1 - t1) := by
  constructor
  · intro now s hth
    unfold checkBurnComplete endBurn
    rw [if_neg (not_lt.mpr hth)]
    dsimp only
    split_ifs <;> simp
  · intro t1 th1 bt1 rest s hs hl ht1 hticks
    obtain ⟨hth, hbt⟩ := hticks (t1, th1, bt1) (List.mem_cons_self _ _)
    simp only at hth hbt
    have hstep : monitorRun ((t1, th1, bt1) :: rest) s
        = monitorRun rest ((checkBurnComplete t1 { s with thrust := th1, burntime := bt1 }).1) := by
      simp only [monitorRun]
      rw [if_pos hs]
    set s' : Sys := { s with thrust := th1, burntime := bt1 } with hs'def
    have harm : (checkBurnComplete t1 s').1 = { s' with lowThrustStart := t1 } :=
      checkBurn_arm hth hl hbt
    rw [hstep, harm]
    have := monitorRun_tracking rest t1 { s' with lowThrustStart := t1 } hs rfl ht1
      (fun x hx => hticks x (List.mem_cons_of_mem _ hx))
    rw [this]
    simp only [List.mem_cons, exists_eq_or_imp]
    simp

/-- Witness for C5 (amended): from a burn in progress with the timestamp
unset, ticks at 1000 ms and 4500 ms showing 0.2 N end the burn (3500 ms
of continuous low thrust), while ticks at 1000 ms and 3000 ms showing
0.2 N do not (only 2000 ms). -/
theorem low_thrust_window_ends_burn_witness :
    ((monitorRun [(1000, 1/5, 1), (4500, 1/5, 9/2)]
        { initState with testInProgress := true }).testInProgress = false)
    ∧ ((monitorRun [(1000, 1/5, 1), (3000, 1/5, 3)]
        { initState with testInProgress := true }).testInProgress = true) := by
  constructor
  · exact (low_thrust_window_ends_burn.2 1000 (1/5) 1 [(4500, 1/5, 9/2)]
      { initState with testInProgress := true } rfl rfl (by norm_num)
      (by norm_num)).mpr ⟨(4500, 1/5, 9/2), by norm_num, by norm_num⟩
  · have h := low_thrust_window_ends_burn.2 1000 (1/5) 1 [(3000, 1/5, 3)]
      { initState with testInProgress := true } rfl rfl (by norm_num) (by norm_num)
    have hno : ¬ ∃ x ∈ [((1000 : ℕ), (1 : ℚ)/5, (1 : ℚ)), (3000, 1/5, 3)], 3000 < x.1 - 1000 := by
      norm_num
    have := mt h.mp hno
    simpa using this

/-- Counterexample to C5 as stated: thrust held at 0.2 N from the tick at
1000 ms through the tick at 4000 ms is 3000 ms of continuous low thrust
(≥ 3000 ms), yet the burn is not ended, because the code requires
`millis() - lowThrustStart > 3000` strictly. -/
theorem low_thrust_exactly_3000ms_does_not_end_burn :
    (monitorRun [(1000, 1/5, 1), (2500, 1/5, 2), (4000, 1/5, 3)]
        { initState with testInProgress := true }).testInProgress = true := by
  have h := low_thrust_window_ends_burn.2 1000 (1/5) 1 [(2500, 1/5, 2), (4000, 1/5, 3)]
    { initState with testInProgress := true } rfl rfl (by norm_num) (by norm_num)
  have hno : ¬ ∃ x ∈ [((1000 : ℕ), (1 : ℚ)/5, (1 : ℚ)), (2500, 1/5, 2), (4000, 1/5, 3)],
      3000 < x.1 - 1000 := by
    norm_num
  have := mt h.mp hno
  simpa using this

/-! ## The E-match pin trace (C2) -/

lemma hold_append {a b : List Event}
    (ha : HighOnlyDuringHold a) (hb : HighOnlyDuringHold b) :
    HighOnlyDuringHold (a ++ b) := by
  intro i t h
  by_cases hi : i < a.length
  · rw [List.getElem?_append_left hi] at h
    have hnext := ha i t h
    have hlt : i + 1 < a.length := (List.getElem?_eq_some.mp hnext).1
    rw [List.getElem?_append_left hlt]
    exact hnext
  · push_neg at hi
    rw [List.getElem?_append_right hi] at h
    have hnext := hb (i - a.length) t h
    have hi1 : a.length ≤ i + 1 := le_trans hi (Nat.le_succ i)
    rw [List.getElem?_append_right hi1]
    have : i + 1 - a.length = i - a.length + 1 := by omega
    rw [this]
    exact hnext

lemma hold_of_all_low {l : List Event} (h : ∀ e ∈ l, e.1 = false) :
    HighOnlyDuringHold l := by
  intro i t hi
  have hmem : ((true, t) : Event) ∈ l := List.getElem?_mem hi
  have := h _ hmem
  simp at this

lemma hold_pair (t0 : ℕ) : HighOnlyDuringHold [(true, t0), (false, t0 + 2000)] := by
  intro i t h
  match i with
  | 0 =>
    simp only [List.getElem?_cons_zero, Option.some.injEq, Prod.mk.injEq, true_and] at h
    simp [h]
  | 1 => simp at h
  | n + 2 => simp at h

lemma hxCalibrate_ematch (w r : ℚ) (s : Sys) : (hxCalibrate w r s).ematch = s.ematch := by
  unfold hxCalibrate
  dsimp only
  split_ifs <;> rfl

lemma acquireData_ematch (now : ℕ) (m : ℚ) (s : Sys) :
    (acquireData now m s).ematch = s.ematch := by
  by_cases h : tickDt now s ≤ 0
  · rw [acquireData_skip m h]
  · simp [acquireData, h]

lemma countDown_ematch (inp : LoopInput) {s : Sys} (h : s.ematch = false) :
    ((countDown inp s).1).ematch = false := by
  unfold countDown igniteMotor
  dsimp only
  split_ifs <;> simp [h]

lemma checkBurn_ematch (now : ℕ) {s : Sys} (h : s.ematch = false) :
    ((checkBurnComplete now s).1).ematch = false := by
  unfold checkBurnComplete endBurn
  dsimp only
  split_ifs <;> simp [h]

lemma countDown_events (inp : LoopInput) (s : Sys) :
    HighOnlyDuringHold (countDown inp s).2 := by
  unfold countDown igniteMotor
  dsimp only
  split_ifs <;> first
    | exact hold_pair inp.now
    | exact hold_of_all_low (by simp)

lemma checkBurn_events (now : ℕ) (s : Sys) :
    HighOnlyDuringHold (checkBurnComplete now s).2 := by
  apply hold_of_all_low
  unfold checkBurnComplete endBurn
  dsimp only
  split_ifs <;> simp

lemma loopIter_safe (inp : LoopInput) {s : Sys} (h : s.ematch = false) :
    ((loopIter inp s).1).ematch = false ∧ HighOnlyDuringHold (loopIter inp s).2 := by
  unfold loopIter
  dsimp only
  set s1 : Sys := if inp.switchPressed && !s.countdownstate && !s.testInProgress then
      startCountdown inp.now (hxCalibrate inp.weight inp.rawReading s)
    else s with hs1
  have h1 : s1.ematch = false := by
    rw [hs1]
    split
    · rw [show (startCountdown inp.now (hxCalibrate inp.weight inp.rawReading s)).ematch
          = (hxCalibrate inp.weight inp.rawReading s).ematch from rfl]
      rw [hxCalibrate_ematch]
      exact h
    · exact h
  have h2 : ((countDown inp s1).1).ematch = false := countDown_ematch inp h1
  constructor
  · split
    · apply checkBurn_ematch
      rw [acquireData_ematch]
      exact h2
    · exact h2
  · apply hold_append (countDown_events inp s1)
    split
    · exact checkBurn_events inp.now _
    · exact hold_of_all_low (by simp)

lemma runLoop_safe (inputs : List LoopInput) {s : Sys} (h : s.ematch = false) :
    ((runLoop inputs s).1).ematch = false ∧ HighOnlyDuringHold (runLoop inputs s).2 := by
  induction inputs generalizing s with
  | nil => exact ⟨h, hold_of_all_low (by simp [runLoop])⟩
  | cons inp rest ih =>
    obtain ⟨h1, hev⟩ := loopIter_safe inp h
    obtain ⟨h2, hev'⟩ := ih h1
    exact ⟨h2, hold_append hev hev'⟩

/-- C2: over every execution of the polling loop from the post-setup
state, the E-match pin is written HIGH only as the start of a fixed
2-second ignition hold that immediately ends with a LOW write (so outside
hold windows, including on every path that reaches burn completion, the
pin is low); the loop ends every run with the pin low; and `endBurn`
either is a no-op or leaves the pin forced low. -/
theorem ematch_high_only_during_ignition_hold (inputs : List LoopInput) :
    ((runLoop inputs initState).1).ematch = false
    ∧ HighOnlyDuringHold (runLoop inputs initState).2
    ∧ ∀ (now : ℕ) (s : Sys),
        ((endBurn now s).1).ematch = false ∨ endBurn now s = (s, []) := by
  obtain ⟨h1, h2⟩ := runLoop_safe inputs (show initState.ematch = false from rfl)
  refine ⟨h1, h2, ?_⟩
  intro now s
  unfold endBurn
  split_ifs with hp
  · right
    rfl
  · left
    rfl

/-! ## Concrete loop executions (C1, C3) -/

/-- A loop iteration in which nothing is touched: switch released, sensor
reading 0. -/
def quietInput (t : ℕ) : LoopInput :=
  { now := t, switchPressed := false, weight := 0, rawReading := 0, mass := 0, sdOpenOk := true }

/-- The operator presses the start switch at t = 1000 ms and enters the
invalid weight `0` at the calibration prompt (what `toFloat` yields for
`"0"` or for non-numeric text); afterwards the loop just runs for
15 quiet seconds. -/
def invalidWeightRun : List LoopInput :=
  { now := 1000, switchPressed := true, weight := 0, rawReading := 1000, mass := 0,
    sdOpenOk := true }
    :: (List.range 15).map (fun k => quietInput (2000 + 1000 * k))

/-- C1 (code bug): with the invalid reference weight `0`, calibration is
aborted (the scale factor stays at its default 1), yet the trigger
iteration still arms the countdown — `loop()` calls `startCountdown()`
unconditionally after `hxCalibrate()` returns — and 15 seconds later the
igniter fires: the run's pin trace contains a HIGH write.  The sequencer
does not remain in Pre-Ignition as the spec requires. -/
theorem invalid_weight_still_ignites :
    ((loopIter (invalidWeightRun.headD (quietInput 0)) initState).1).countdownstate = true
    ∧ ((loopIter (invalidWeightRun.headD (quietInput 0)) initState).1).scaleFactor = 1
    ∧ ((runLoop invalidWeightRun initState).2).any (fun e => e.1) = true := by
  refine ⟨by decide, by decide, by decide⟩

/-- A full valid test: the operator presses the switch at t = 1000 ms and
enters the valid weight 0.5 kg (raw reading 1000, so the calibration
factor is 2000); the countdown runs for 15 quiet seconds, ignition fires
at t = 16000 ms, and one acquisition tick at t = 79001 ms (61.001 s of
burn time, thrust 0) ends the burn. -/
def validTestRun : List LoopInput :=
  { now := 1000, switchPressed := true, weight := 1/2, rawReading := 1000, mass := 0,
    sdOpenOk := true }
    :: (List.range 15).map (fun k => quietInput (2000 + 1000 * k))
    ++ [quietInput 79001]

/-- The operator presses the start switch once more at t = 80000 ms,
after the burn has completed, entering the same valid weight. -/
def restartPress : LoopInput :=
  { now := 80000, switchPressed := true, weight := 1/2, rawReading := 1000, mass := 0,
    sdOpenOk := true }

set_option maxRecDepth 40000 in
/-- C3 (code bug): after a complete test — calibration succeeded (factor
2000), the igniter fired, the burn ended at t = 79001 ms — pressing the
start switch again in the same power cycle arms a fresh countdown:
`loop()`'s guard `!countdownstate && !testInProgress` is satisfied again
once `endBurn()` clears `testInProgress`, so Complete is not terminal and
a second test can run without an external reset. -/
theorem complete_state_allows_second_test :
    ((runLoop validTestRun initState).1).testInProgress = false
    ∧ ((runLoop validTestRun initState).1).burnEndTime = 79001
    ∧ ((runLoop validTestRun initState).1).scaleFactor = 2000
    ∧ ((runLoop validTestRun initState).2).any (fun e => e.1) = true
    ∧ ((loopIter restartPress (runLoop validTestRun initState).1).1).countdownstate = true := by
  norm_num [validTestRun, restartPress, quietInput, runLoop, loopIter, countDown,
    igniteMotor, startCountdown, hxCalibrate, acquireData, checkBurnComplete, endBurn,
    tickDt, tickThrust, initState, GRAV, List.range_succ]

/-! ## Filename selection (C7) -/

/-- C7: for any storage contents (any `exists` oracle under which some
candidate is unused), the probe returns `<k>_PLT.csv` for the smallest
non-negative index `k` whose name is not already present — so a name that
exists, i.e. one written by a prior session, is never chosen. -/
theorem filename_probe_selects_least_unused (ex : String → Bool)
    (h : ∃ i, ex (mkName i) = false) (k : ℕ)
    (hk : ex (mkName k) = false) (hmin : ∀ j, j < k → ex (mkName j) = true) :
    createNewSDfilename ex h = mkName k := by
  unfold createNewSDfilename
  congr 1
  rw [Nat.find_eq_iff h]
  refine ⟨hk, fun n hn => ?_⟩
  rw [hmin n hn]
  simp

/-- The storage contents of the spec's example: exactly `0_PLT.csv` and
`1_PLT.csv` are present. -/
def existsPLT01 : String → Bool := fun s => s == "0_PLT.csv" || s == "1_PLT.csv"

lemma existsPLT01_free : ∃ i, existsPLT01 (mkName i) = false := ⟨2, by decide⟩

/-- Witness for C7: with `0_PLT.csv` and `1_PLT.csv` already present, the
probe creates `2_PLT.csv`. -/
theorem filename_probe_selects_least_unused_witness :
    createNewSDfilename existsPLT01 existsPLT01_free = "2_PLT.csv" := by
  have h := filename_probe_selects_least_unused existsPLT01 existsPLT01_free 2
    (by decide) (by decide)
  rw [h]
  decide

/-- Witness for C8: starting from the post-setup accumulators, two
accepted ticks (masses 2 kg and 4 kg at 1000 ms and 2000 ms) leave the
running average equal to the mean of the two derived thrusts. -/
theorem running_average_is_arithmetic_mean_witness :
    (runAcq [(1000, 2), (2000, 4)] initState).avgthrust
      = (acqThrusts [(1000, 2), (2000, 4)] initState).sum
        / ((acqThrusts [(1000, 2), (2000, 4)] initState).length : ℚ) :=
  running_average_is_arithmetic_mean [(1000, 2), (2000, 4)] initState rfl rfl
    (by
      norm_num [acqThrusts, acquireData, tickDt, tickThrust, initState, GRAV]
      decide)
